import Mathlib

/-!
Verification of the scoring / deduplication / selection core of the
job-aggregation pipeline (Google Apps Script sources: `output.gs`,
`appending.gs`, `email.js`, `scraper.gs`, `input.gs`).

The JavaScript sources are shallowly embedded: JS strings become `String`,
JS numbers (used only integrally here) become `Int`, fields that may be
`undefined` become `Option String`, thrown exceptions become `Except String`,
and the spreadsheet-backed state becomes explicit lists of rows threaded
through the functions.
-/

namespace JobAgg

/-- Embeds JavaScript `String.prototype.toLowerCase` as used by the code
(ASCII-range lowercasing; the keyword rules and listing text are ASCII). -/
def jsToLower (s : String) : String := ⟨s.data.map Char.toLower⟩

/-- Helper for substring search: `leadsWith s pat` is true when `pat` is an
initial segment of `s`. -/
def leadsWith : List Char → List Char → Bool
  | _, [] => true
  | [], _ :: _ => false
  | a :: as, b :: bs => a == b && leadsWith as bs

/-- Helper for substring search: `hasSub s pat` is true when `pat` occurs
contiguously inside `s`. -/
def hasSub : List Char → List Char → Bool
  | [], pat => pat.isEmpty
  | s@(_ :: rest), pat => leadsWith s pat || hasSub rest pat

/-- Embeds JavaScript `String.prototype.includes`: `strIncludes s pat` is
`s.includes(pat)`. -/
def strIncludes (s pat : String) : Bool := hasSub s.data pat.data

theorem leadsWith_iff : ∀ (s pat : List Char), leadsWith s pat = true ↔ ∃ t, s = pat ++ t
  | _, [] => by simp [leadsWith]
  | [], _ :: _ => by simp [leadsWith]
  | a :: as, b :: bs => by
    simp only [leadsWith, Bool.and_eq_true, beq_iff_eq, leadsWith_iff as bs,
      List.cons_append, List.cons.injEq]
    constructor
    · rintro ⟨rfl, t, rfl⟩
      exact ⟨t, rfl, rfl⟩
    · rintro ⟨t, rfl, rfl⟩
      exact ⟨rfl, t, rfl⟩

theorem hasSub_iff : ∀ (s pat : List Char), hasSub s pat = true ↔ ∃ l r, s = l ++ pat ++ r
  | [], pat => by
    simp only [hasSub, List.isEmpty_iff]
    constructor
    · rintro rfl
      exact ⟨[], [], rfl⟩
    · rintro ⟨l, r, h⟩
      rcases List.append_eq_nil.mp h.symm with ⟨h1, h2⟩
      exact (List.append_eq_nil.mp h1).2
  | c :: rest, pat => by
    simp only [hasSub, Bool.or_eq_true, leadsWith_iff, hasSub_iff rest pat]
    constructor
    · rintro (⟨t, ht⟩ | ⟨l, r, hr⟩)
      · exact ⟨[], t, by simpa using ht⟩
      · exact ⟨c :: l, r, by simp [hr]⟩
    · rintro ⟨l, r, h⟩
      cases l with
      | nil => exact Or.inl ⟨r, by simpa using h⟩
      | cons x xs =>
        simp only [List.cons_append, List.cons.injEq] at h
        exact Or.inr ⟨xs, r, h.2⟩

theorem hasSub_trans {a b c : List Char} (h1 : hasSub b a = true) (h2 : hasSub c b = true) :
    hasSub c a = true := by
  rcases (hasSub_iff b a).mp h1 with ⟨l1, r1, hb⟩
  rcases (hasSub_iff c b).mp h2 with ⟨l2, r2, hc⟩
  exact (hasSub_iff c a).mpr ⟨l2 ++ l1, r1 ++ r2, by simp [hc, hb, List.append_assoc]⟩

theorem strIncludes_trans {a b c : String} (h1 : strIncludes b a = true)
    (h2 : strIncludes c b = true) : strIncludes c a = true :=
  hasSub_trans h1 h2

/-- Embeds JavaScript template-literal interpolation `${x}` of a value that may
be `undefined`: interpolating `undefined` produces the literal text
"undefined". -/
def jsInterp : Option String → String
  | none => "undefined"
  | some s => s

/-- Embeds JavaScript `x || ''` on a string that may be `undefined`:
`undefined` and the empty string both map to the empty string. -/
def jsOrEmpty : Option String → String
  | none => ""
  | some s => s

/-- Match scope of a filter rule, from `input.getActiveFilters` which validates
`Type` into `['title', 'any', 'negative']`. -/
inductive FilterType
  | title
  | any
  | negative
deriving DecidableEq

/-- A filter rule row (`{Keyword, Weight, Type}` in the source; `Type` is not
a legal Lean field name, so it is called `ftype` here). -/
structure Filter where
  Keyword : String
  Weight : Int
  ftype : FilterType
deriving DecidableEq

/-- A raw job listing from `scraper.gs`. `Title`, `Link`, `Source`, `ID`,
`DateFound` are modelled as strings (JS falsy for a string means empty), while
`Company`, `Location`, `Snippet` may be wholly absent (`undefined`) when the
listing object was built elsewhere, hence `Option String`. -/
structure RawJob where
  ID : String
  DateFound : String
  Title : String
  Company : Option String
  Location : Option String
  Link : String
  Source : String
  Snippet : Option String
deriving DecidableEq

/-- A processed job row, the 12-column record written to the Jobs tab. -/
structure ProcessedJob where
  ID : String
  DateFound : String
  Title : String
  Company : String
  Location : String
  Link : String
  Source : String
  Snippet : String
  Score : Int
  MatchedKeywords : String
  Status : String
  DateNotified : String
deriving DecidableEq

/-- The config object from `input.getConfig` (plus `coverLetterDocId`, which
`email.js` reads from the same config). `minScore` and `topN` are modelled as
`Int` (the source validates them only as numeric). -/
structure Config where
  emailRecipient : String
  minScore : Int
  topN : Int
  dedupeBy : String
  dateFormat : String
  coverLetterDocId : String
deriving DecidableEq

/-- Result record of `calculateScore`. -/
structure ScoreResult where
  score : Int
  matchedKeywords : List String
deriving DecidableEq

/-- The combined search corpus of `calculateScore` (output.gs line 93):
`` `${job.Title} ${job.Company} ${job.Location} ${job.Snippet}` ``.
An absent (`undefined`) field interpolates as the literal text "undefined". -/
def corpus (job : RawJob) : String :=
  job.Title ++ " " ++ jsInterp job.Company ++ " " ++ jsInterp job.Location ++ " " ++
    jsInterp job.Snippet

/-- The per-rule match test of `calculateScore` (output.gs lines 96-104): the
keyword is lowercased; `title` rules search the lowercased title, `any` and
`negative` rules search the lowercased combined corpus. The source hoists the
lowercased corpus out of the rule loop; that is a pure efficiency detail with
no semantic difference. -/
def ruleMatches (job : RawJob) (f : Filter) : Bool :=
  let keyword := jsToLower f.Keyword
  match f.ftype with
  | .title => strIncludes (jsToLower job.Title) keyword
  | .any => strIncludes (jsToLower (corpus job)) keyword
  | .negative => strIncludes (jsToLower (corpus job)) keyword

/-- One iteration of the rule loop of `output.calculateScore` (output.gs lines
95-110): on a match, add the rule's weight and append the rule's original-case
keyword. -/
def scoreStep (job : RawJob) (acc : ScoreResult) (f : Filter) : ScoreResult :=
  if ruleMatches job f then
    ⟨acc.score + f.Weight, acc.matchedKeywords ++ [f.Keyword]⟩
  else acc

/-- Embeds `output.calculateScore` (output.gs lines 82-117), the happy path
after input validation: fold over the filters, adding the weight and appending
the original-case keyword on each match. -/
def calculateScore (job : RawJob) (filters : List Filter) : ScoreResult :=
  filters.foldl (scoreStep job) ⟨0, []⟩

/-- Embeds `output.calculateScore` including its input validation (output.gs
lines 88-90): a missing (`null`/`undefined`, i.e. falsy) job or filters
argument throws `Invalid job or filters`. -/
def calculateScoreChecked (job? : Option RawJob) (filters? : Option (List Filter)) :
    Except String ScoreResult :=
  match job?, filters? with
  | some job, some filters => .ok (calculateScore job filters)
  | none, _ => .error "Invalid job or filters"
  | some _, none => .error "Invalid job or filters"

theorem calculateScore_foldl (job : RawJob) :
    ∀ (fs : List Filter) (sc : Int) (mk : List String),
      fs.foldl (scoreStep job) ⟨sc, mk⟩ =
      ⟨sc + ((fs.filter (ruleMatches job)).map Filter.Weight).sum,
       mk ++ (fs.filter (ruleMatches job)).map Filter.Keyword⟩
  | [], sc, mk => by simp
  | f :: fs, sc, mk => by
    by_cases h : ruleMatches job f
    · simp only [List.foldl_cons, scoreStep, h, if_pos, List.filter_cons_of_pos h,
        List.map_cons, List.sum_cons, calculateScore_foldl job fs]
      exact congrArg₂ ScoreResult.mk (by ring) (by simp)
    · simp only [List.foldl_cons, scoreStep, h, List.filter_cons_of_neg h,
        calculateScore_foldl job fs, Bool.false_eq_true, if_false]

/-- `calculateScore` is the sum of the weights of the matching rules, with the
matched keywords listed in rule order with original casing. -/
theorem calculateScore_eq (job : RawJob) (fs : List Filter) :
    calculateScore job fs =
      ⟨((fs.filter (ruleMatches job)).map Filter.Weight).sum,
       (fs.filter (ruleMatches job)).map Filter.Keyword⟩ := by
  simpa using calculateScore_foldl job fs 0 []

/-- Script Properties, the persistent key/value store that
`utils.generateUniqueID` (menu.gs lines 141-155, the `utils.gs` portion of
that file) uses for its per-type counters, as an association list. -/
abbrev ScriptProps := List (String × String)

/-- Embeds `scriptProperties.getProperty(key)`: the stored value, or `none`
for an absent key. -/
def getProperty (props : ScriptProps) (key : String) : Option String :=
  (props.find? (fun p => p.1 == key)).map Prod.snd

/-- Embeds `scriptProperties.setProperty(key, value)`: replace the existing
entry for the key, or add one. -/
def setProperty : ScriptProps → String → String → ScriptProps
  | [], key, value => [(key, value)]
  | p :: rest, key, value =>
    if p.1 == key then (key, value) :: rest else p :: setProperty rest key value

/-- Embeds JavaScript `String.prototype.toUpperCase` as used by
`generateUniqueID` (ASCII-range uppercasing, matching the ASCII log types). -/
def jsToUpper (s : String) : String := ⟨s.data.map Char.toUpper⟩

/-- Embeds `String(counter).padStart(3, '0')`: left-pad with zeros to three
characters. -/
def padStart3 (s : String) : String :=
  if s.length < 3 then String.mk (List.replicate (3 - s.length) '0') ++ s else s

/-- Embeds `parseInt(x || '0', 10)` on the values this code stores in Script
Properties: the store only ever holds `counter.toString()` decimal numerals,
and an absent property defaults to `'0'`. -/
def parseCounter : Option String → Nat
  | none => 0
  | some v => v.toNat?.getD 0

/-- Embeds `utils.generateUniqueID` (menu.gs lines 141-155; the file holds the
`utils.gs` v1.3 content after its menu part): the type argument is trimmed and
defaults to "INFO" when absent or blank, the persistent `TYPE_COUNTER` Script
Property is read, incremented and written back, and the ID `TYPE-nnn`
(uppercased, zero-padded to three digits) is returned. `propsOk` models the
external PropertiesService: when it throws, the catch returns the constant
"INFO-000" and the store is untouched. Returns the ID together with the
updated store. -/
def generateUniqueID (type? : Option String) (propsOk : Bool) (props : ScriptProps) :
    String × ScriptProps :=
  if propsOk then
    let safeType :=
      match type? with
      | some t => if t.trim == "" then "INFO" else t.trim
      | none => "INFO"
    let key := jsToUpper safeType ++ "_COUNTER"
    let counter := parseCounter (getProperty props key) + 1
    (jsToUpper safeType ++ "-" ++ padStart3 (toString counter),
     setProperty props key (toString counter))
  else
    ("INFO-000", props)

/-- The per-job record construction of `output.processJobs` (output.gs lines
46-63): score the job, recompute the snippet as `"Title from Source"`, join
the matched keywords with `", "`, and classify `New`/`Ignore` against
`config.minScore`. `job.ID || generateUniqueID()` short-circuits: the
generator (and its counter increment) runs only when the raw job's ID is
falsy, and its no-argument call defaults the type to "INFO". Interleaved
`logMessage` calls also consume these counters at runtime when their external
log sink is available; that logging is out of scope and not modelled, and no
claim depends on the generated ID values. Returns the row together with the
updated Script Properties store. -/
def processOne (cfg : Config) (filters : List Filter) (propsOk : Bool)
    (props : ScriptProps) (job : RawJob) : ProcessedJob × ScriptProps :=
  let r := calculateScore job filters
  let idGen := if job.ID == "" then generateUniqueID none propsOk props else (job.ID, props)
  ({ ID := idGen.1
     DateFound := job.DateFound
     Title := job.Title
     Company := jsOrEmpty job.Company
     Location := jsOrEmpty job.Location
     Link := job.Link
     Source := job.Source
     Snippet := job.Title ++ " from " ++ job.Source
     Score := r.score
     MatchedKeywords := String.intercalate ", " r.matchedKeywords
     Status := if cfg.minScore ≤ r.score then "New" else "Ignore"
     DateNotified := "" },
   idGen.2)

/-- The job loop of `output.processJobs` (output.gs lines 32-66): skip jobs
with an empty Title/Link/Source; when `config.dedupeBy === 'link'`, skip jobs
whose Link is already in the ephemeral seen set; otherwise mark the Link seen
(before scoring) and emit the processed record, threading the Script
Properties store consumed by ID generation. -/
def processLoop (cfg : Config) (filters : List Filter) (propsOk : Bool) :
    List RawJob → List String → ScriptProps → List ProcessedJob
  | [], _, _ => []
  | job :: rest, seen, props =>
    if job.Title == "" || job.Link == "" || job.Source == "" then
      processLoop cfg filters propsOk rest seen props
    else if cfg.dedupeBy == "link" && seen.contains job.Link then
      processLoop cfg filters propsOk rest seen props
    else
      (processOne cfg filters propsOk props job).1 ::
        processLoop cfg filters propsOk rest (job.Link :: seen)
          (processOne cfg filters propsOk props job).2

/-- Embeds `output.processJobs` (output.gs lines 16-74) in an environment with
Script Properties store `props` and PropertiesService availability `propsOk`.
The config guard mirrors JS truthiness: `!config.minScore` throws when
`minScore` is `0` and `!config.dedupeBy` throws when `dedupeBy` is the empty
string. -/
def processJobs (rawJobs : List RawJob) (filters : List Filter) (cfg : Config)
    (propsOk : Bool) (props : ScriptProps) : Except String (List ProcessedJob) :=
  if cfg.minScore == 0 || cfg.dedupeBy == "" then
    .error "Missing required config fields: minScore or dedupeBy"
  else
    .ok (processLoop cfg filters propsOk rawJobs [] props)

/-- Embeds `appending.getExistingLinks` (appending.gs lines 107-124): the Link
column of the sheet, keeping only truthy string values that contain the
substring "http". -/
def getExistingLinks (rows : List ProcessedJob) : List String :=
  (rows.map (fun r => r.Link)).filter (fun l => l != "" && strIncludes l "http")

/-- The required-field check of `appending.appendJobs` (appending.gs line 49):
every string field except Company, Location and DateNotified must be truthy
(non-empty); `Score` and `DateNotified` only need to be defined, which the
typed row guarantees. -/
def rowValid (j : ProcessedJob) : Bool :=
  j.ID != "" && j.DateFound != "" && j.Title != "" && j.Link != "" && j.Source != "" &&
    j.Snippet != "" && j.MatchedKeywords != "" && j.Status != ""

/-- The status fix-up of `appending.appendJobs` (appending.gs lines 62-65): an
unknown status is replaced by `Ignore`. -/
def fixStatus (s : String) : String :=
  if ["New", "Ignore", "Applied", "Interviewing", "Rejected"].contains s then s
  else "Ignore"

/-- The job loop of `appending.appendJobs` (appending.gs lines 47-81): skip
rows with missing fields, skip Links already on the sheet or already seen in
this batch, fix up the status, and collect the rows to append. -/
def appendLoop (existing : List String) :
    List ProcessedJob → List String → List ProcessedJob
  | [], _ => []
  | j :: rest, seenBatch =>
    if !(rowValid j) then
      appendLoop existing rest seenBatch
    else if existing.contains j.Link || seenBatch.contains j.Link then
      appendLoop existing rest seenBatch
    else
      { j with Status := fixStatus j.Status } :: appendLoop existing rest (j.Link :: seenBatch)

/-- Embeds `appending.appendJobs` (appending.gs lines 15-100) over an explicit
sheet state (the list of data rows of the Jobs tab): validates the config,
deduplicates against `getExistingLinks` of the sheet and against the current
batch, appends the surviving rows, and returns the appended count together
with the new sheet state. -/
def appendJobs (processedJobs : List ProcessedJob) (cfg : Config)
    (sheet : List ProcessedJob) : Except String (Nat × List ProcessedJob) :=
  if cfg.dedupeBy == "" || cfg.minScore == 0 then
    .error "Missing required config fields: dedupeBy or minScore"
  else if cfg.dedupeBy != "link" then
    .error "dedupeBy must be \"link\""
  else
    let toAppend := appendLoop (getExistingLinks sheet) processedJobs []
    .ok (toAppend.length, sheet ++ toAppend)

/-- Embeds JavaScript `Array.prototype.slice(0, e)`: a negative end index
counts from the end of the array. -/
def jsSlice (l : List α) (e : Int) : List α :=
  l.take (if e < 0 then ((l.length : Int) + e).toNat else e.toNat)

/-- The eligibility test of `email.sendJobDigest` (email.js lines 58-61):
status `New`, score at least `config.minScore`, and a falsy (empty)
DateNotified. -/
def eligFilter (cfg : Config) (j : ProcessedJob) : Bool :=
  j.Status == "New" && decide (cfg.minScore ≤ j.Score) && j.DateNotified == ""

/-- The comparator of `email.sendJobDigest` (email.js line 62) as a total
preorder: `(a, b) => b.Score - a.Score` sorts by score descending. The V8
`Array.prototype.sort` is stable, which `List.mergeSort` models exactly. -/
def scoreDescLE (a b : ProcessedJob) : Bool := decide (b.Score ≤ a.Score)

/-- The filtered and score-sorted candidate list of `email.sendJobDigest`
(email.js lines 58-62), before the `slice(0, topN)` truncation. -/
def sortedEligible (rows : List ProcessedJob) (cfg : Config) : List ProcessedJob :=
  (rows.filter (eligFilter cfg)).mergeSort scoreDescLE

/-- The digest selection of `email.sendJobDigest` (email.js lines 58-62):
filter, stable-sort by score descending, truncate to `config.topN`. -/
def eligibleJobs (rows : List ProcessedJob) (cfg : Config) : List ProcessedJob :=
  jsSlice (sortedEligible rows cfg) cfg.topN

/-- The per-row update of `email.updateNotifiedJobs` (email.js lines 201-208):
a row whose ID matches an emailed job gets `Status := "Notified"` and
`DateNotified := today`. -/
def markRow (emailedJobs : List ProcessedJob) (today : String) (r : ProcessedJob) :
    ProcessedJob :=
  if emailedJobs.any (fun j => j.ID == r.ID) then
    { r with Status := "Notified", DateNotified := today }
  else r

/-- Embeds `email.updateNotifiedJobs` (email.js lines 187-216) over an
explicit sheet state: returns the updated-row count and the new rows. -/
def updateNotifiedJobs (rows emailedJobs : List ProcessedJob) (today : String) :
    Nat × List ProcessedJob :=
  ((rows.filter (fun r => emailedJobs.any (fun j => j.ID == r.ID))).length,
   rows.map (markRow emailedJobs today))

/-- Embeds `email.sendJobDigest` (email.js lines 14-101) over an explicit
sheet state. `sendOk` is the outcome of the external `GmailApp.sendEmail`
collaborator: when the send throws, the error propagates before
`updateNotifiedJobs` runs, so the sheet state is unchanged. The config guard
mirrors JS truthiness (`!config.topN` is true for `0`). -/
def sendJobDigest (cfg : Config) (rows : List ProcessedJob) (sendOk : Bool)
    (today : String) : Except String Nat × List ProcessedJob :=
  if cfg.emailRecipient == "" || cfg.topN == 0 || cfg.coverLetterDocId == "" then
    (.error "Missing required config: emailRecipient, topN, or coverLetterDocId", rows)
  else
    let eligible := eligibleJobs rows cfg
    if eligible.isEmpty then
      (.ok 0, rows)
    else if sendOk then
      (.ok eligible.length, (updateNotifiedJobs rows eligible today).2)
    else
      (.error "Failed to send digest", rows)

/-- An RSS source descriptor from `input.getActiveSources`. -/
structure Source where
  SourceName : String
  URL : String
  Notes : String
deriving DecidableEq

/-- The source loop of `scraper.scrapeJobs` (scraper.gs lines 25-41): skip
sources with an empty name or URL; fetch each remaining source through the
external `fetchSingleRSS` collaborator (modelled by the `fetch` argument), and
on a per-source failure log and continue with the next source. -/
def scrapeLoop (fetch : Source → Except String (List RawJob)) :
    List Source → List RawJob
  | [] => []
  | s :: rest =>
    if s.SourceName == "" || s.URL == "" then
      scrapeLoop fetch rest
    else
      match fetch s with
      | .ok sourceJobs => sourceJobs ++ scrapeLoop fetch rest
      | .error _ => scrapeLoop fetch rest

/-- Embeds `scraper.scrapeJobs` (scraper.gs lines 14-49): an empty source list
throws; otherwise the per-source loop runs with isolate-and-continue error
handling. -/
def scrapeJobs (fetch : Source → Except String (List RawJob)) (sources : List Source) :
    Except String (List RawJob) :=
  if sources.isEmpty then .error "No valid sources provided"
  else .ok (scrapeLoop fetch sources)

/-- Embeds the sanitize-and-validate step of `input.getConfig` (input.gs lines
58-75) on the values read from the Config tab: `minScore` and `topN` are the
results of `Number(...)` with `none` standing for `NaN`; then the
emailRecipient, dedupeBy and dateFormat checks run in source order. A `0`
minScore passes the `isNaN` check. -/
def getConfigValidate (emailRecipient : String) (minScore? topN? : Option Int)
    (dedupeBy dateFormat coverLetterDocId : String) : Except String Config :=
  match minScore?, topN? with
  | some ms, some tn =>
    if !(strIncludes emailRecipient "@") then .error "Invalid emailRecipient"
    else if dedupeBy != "link" then .error "dedupeBy must be \"link\""
    else if dateFormat != "yyyy-MM-dd" then .error "Invalid dateFormat"
    else .ok ⟨emailRecipient, ms, tn, dedupeBy, dateFormat, coverLetterDocId⟩
  | _, _ => .error "minScore and topN must be numeric"

/-- A listing with only a title, used by the claimed case-insensitivity
example `score({title:"POWER"}, [{keyword:"power", scope:"title-only",
weight:5}])`. -/
def powerJob : RawJob :=
  { ID := "", DateFound := "", Title := "POWER", Company := none, Location := none,
    Link := "", Source := "", Snippet := none }

/-- A listing whose Company field is absent (`undefined`), so the template
literal of `calculateScore` interpolates the literal text "undefined" into
the combined corpus. -/
def undefJob : RawJob :=
  { ID := "", DateFound := "", Title := "Grid Engineer", Company := none,
    Location := some "Berlin", Link := "https://x/1", Source := "S",
    Snippet := some "great role" }

/-- C1: for every listing and rule list, `calculateScore` returns the sum of
the weights of exactly the matching rules (title rules search the lowercased
title, any/negative rules search the lowercased combined corpus, both by
case-insensitive substring containment as defined by `ruleMatches`), with the
matched keywords in rule-list order and original casing; and the concrete
example `score({title:"POWER"}, [{keyword:"power", title-only, 5}])` yields
score 5 with matched keyword "power". -/
theorem calculateScore_sums_matching_weights :
    (∀ (job : RawJob) (fs : List Filter),
      calculateScore job fs =
        ⟨((fs.filter (ruleMatches job)).map Filter.Weight).sum,
         (fs.filter (ruleMatches job)).map Filter.Keyword⟩) ∧
    calculateScore powerJob [⟨"power", 5, .title⟩] = ⟨5, ["power"]⟩ :=
  ⟨calculateScore_eq, by decide⟩

/-- C8: `calculateScore` fails with the `Invalid job or filters` error exactly
when the listing or the rule-set argument is absent, and an empty rule set is
not an error: it returns score 0 and an empty matched list. -/
theorem calculateScoreChecked_fails_iff_absent :
    (∀ (job : RawJob) (fs : List Filter),
        calculateScoreChecked (some job) (some fs) = .ok (calculateScore job fs)) ∧
    (∀ fs?, calculateScoreChecked none fs? = .error "Invalid job or filters") ∧
    (∀ job?, calculateScoreChecked job? none = .error "Invalid job or filters") ∧
    (∀ job, calculateScoreChecked (some job) (some []) = .ok ⟨0, []⟩) := by
  refine ⟨fun _ _ => rfl, fun _ => rfl, ?_, fun _ => rfl⟩
  intro job?
  cases job? <;> rfl

/-- The config produced by a Config tab whose `minScore` value is `0`:
`getConfig` accepts it (its numeric check is only `isNaN`). -/
def cfgZero : Config :=
  { emailRecipient := "user@example.com", minScore := 0, topN := 10,
    dedupeBy := "link", dateFormat := "yyyy-MM-dd", coverLetterDocId := "doc1" }

/-- C9: `getConfig` accepts `minScore = 0` as a valid numeric config value,
yet `processJobs` then throws `Missing required config fields: minScore or
dedupeBy` for every job list and filter list, because its JS truthiness guard
`!config.minScore` treats `0` as missing. -/
theorem processJobs_rejects_minScore_zero :
    getConfigValidate "user@example.com" (some 0) (some 10) "link" "yyyy-MM-dd" "doc1" =
        .ok cfgZero ∧
    cfgZero.minScore = 0 ∧
    ∀ (rawJobs : List RawJob) (filters : List Filter) (propsOk : Bool)
      (props : ScriptProps),
      processJobs rawJobs filters cfgZero propsOk props =
        .error "Missing required config fields: minScore or dedupeBy" :=
  ⟨rfl, rfl, fun _ _ _ _ => rfl⟩

/-- C10: for the listing `undefJob` whose Company is absent, the combined
search corpus contains the literal text "undefined", so every any-field or
negative rule whose lowercased keyword is a substring of "undefined" matches,
even though the fields the listing actually has contain no such text (shown
concretely for the keyword "undef", which scores 7 despite appearing in no
actual field). -/
theorem undefined_field_pollutes_corpus :
    strIncludes (corpus undefJob) "undefined" = true ∧
    (∀ f : Filter, f.ftype = .any ∨ f.ftype = .negative →
      strIncludes "undefined" (jsToLower f.Keyword) = true →
      ruleMatches undefJob f = true) ∧
    calculateScore undefJob [⟨"undef", 7, .any⟩] = ⟨7, ["undef"]⟩ ∧
    strIncludes (jsToLower undefJob.Title) "undef" = false ∧
    strIncludes (jsToLower (jsOrEmpty undefJob.Location)) "undef" = false ∧
    strIncludes (jsToLower (jsOrEmpty undefJob.Snippet)) "undef" = false := by
  refine ⟨by decide, ?_, by decide, by decide, by decide, by decide⟩
  intro f hty hkw
  have hcorp : strIncludes (jsToLower (corpus undefJob)) "undefined" = true := by decide
  obtain ⟨kw, w, ty⟩ := f
  rcases hty with h | h <;> simp only at h <;> subst h <;>
    exact strIncludes_trans hkw hcorp

/-- Witness for C10, instantiated at the negative rule with keyword "FINED"
(whose lowercasing "fined" occurs inside "undefined"). -/
theorem undefined_field_pollutes_corpus_witness :
    ruleMatches undefJob ⟨"FINED", 3, .negative⟩ = true :=
  undefined_field_pollutes_corpus.2.1 ⟨"FINED", 3, .negative⟩ (Or.inr rfl) (by decide)

theorem processLoop_status (cfg : Config) (filters : List Filter) (propsOk : Bool) :
    ∀ (raw : List RawJob) (seen : List String) (props : ScriptProps) (j : ProcessedJob),
      j ∈ processLoop cfg filters propsOk raw seen props →
      j.Status = if cfg.minScore ≤ j.Score then "New" else "Ignore"
  | [], _, _, _, h => by simp [processLoop] at h
  | job :: rest, seen, props, j, h => by
    rw [processLoop] at h
    split at h
    · exact processLoop_status cfg filters propsOk rest seen props j h
    · split at h
      · exact processLoop_status cfg filters propsOk rest seen props j h
      · rcases List.mem_cons.mp h with rfl | h'
        · rfl
        · exact processLoop_status cfg filters propsOk rest _ _ j h'

theorem processLoop_length (cfg : Config) (filters filters' : List Filter)
    (propsOk : Bool) :
    ∀ (raw : List RawJob) (seen : List String) (props : ScriptProps),
      (processLoop cfg filters' propsOk raw seen props).length =
        (processLoop cfg filters propsOk raw seen props).length
  | [], _, _ => rfl
  | job :: rest, seen, props => by
    rw [processLoop, processLoop]
    split
    · exact processLoop_length cfg filters filters' propsOk rest seen props
    · split
      · exact processLoop_length cfg filters filters' propsOk rest seen props
      · simpa using processLoop_length cfg filters filters' propsOk rest (job.Link :: seen)
          ((processOne cfg filters propsOk props job).2)

/-- C3: in the output of a successful `processJobs` run, a score equal to
`minScore` is classified `New` (accepted) and a score strictly below it is
classified `Ignore` (rejected); and rejected listings are not dropped: the
number of emitted listings does not depend on the filters (hence not on the
scores) at all. -/
theorem processJobs_status_boundary (rawJobs : List RawJob) (filters : List Filter)
    (cfg : Config) (propsOk : Bool) (props : ScriptProps) (out : List ProcessedJob)
    (h : processJobs rawJobs filters cfg propsOk props = .ok out) :
    (∀ j ∈ out,
      (j.Score = cfg.minScore → j.Status = "New") ∧
      (j.Score < cfg.minScore → j.Status = "Ignore")) ∧
    ∀ filters' : List Filter, ∃ out',
      processJobs rawJobs filters' cfg propsOk props = .ok out' ∧
        out'.length = out.length := by
  rw [processJobs] at h
  split at h
  · exact absurd h (by simp)
  · rename_i hguard
    have hout : out = processLoop cfg filters propsOk rawJobs [] props := by
      cases h
      rfl
    constructor
    · intro j hj
      have hs := processLoop_status cfg filters propsOk rawJobs [] props j (hout ▸ hj)
      constructor
      · intro he
        rw [hs, if_pos (le_of_eq he.symm)]
      · intro hlt
        rw [hs, if_neg (not_le.mpr hlt)]
    · intro filters'
      refine ⟨processLoop cfg filters' propsOk rawJobs [] props, ?_, ?_⟩
      · rw [processJobs, if_neg hguard]
      · rw [hout]
        exact processLoop_length cfg filters filters' propsOk rawJobs [] props

/-- A config with `minScore = 3` used to exercise the classification
boundary. -/
def cfg1 : Config :=
  { emailRecipient := "user@example.com", minScore := 3, topN := 10,
    dedupeBy := "link", dateFormat := "yyyy-MM-dd", coverLetterDocId := "doc1" }

/-- A filter list with a single title rule of weight 3. -/
def filters1 : List Filter := [⟨"grid", 3, .title⟩]

/-- Two raw jobs: one scoring exactly `minScore` (3), one scoring 0. -/
def raw1 : List RawJob :=
  [⟨"a1", "2025-09-13", "Grid lead", none, none, "https://x/1", "S", none⟩,
   ⟨"b1", "2025-09-13", "Cook", none, none, "https://x/2", "S", none⟩]

/-- The processed output of `raw1` under `filters1` and `cfg1`: the boundary
job is `New`, the below-threshold job is `Ignore`, and both are emitted. -/
def out1 : List ProcessedJob :=
  [⟨"a1", "2025-09-13", "Grid lead", "", "", "https://x/1", "S", "Grid lead from S",
    3, "grid", "New", ""⟩,
   ⟨"b1", "2025-09-13", "Cook", "", "", "https://x/2", "S", "Cook from S",
    0, "", "Ignore", ""⟩]

/-- Witness for C3 at a concrete batch: one listing scores exactly
`minScore = 3` and is emitted as `New`, another scores `0 < 3` and is emitted
as `Ignore`. -/
theorem processJobs_status_boundary_witness :
    processJobs raw1 filters1 cfg1 true [] = .ok out1 ∧
    ((∀ j ∈ out1,
        (j.Score = cfg1.minScore → j.Status = "New") ∧
        (j.Score < cfg1.minScore → j.Status = "Ignore")) ∧
      ∀ filters' : List Filter, ∃ out',
        processJobs raw1 filters' cfg1 true [] = .ok out' ∧
          out'.length = out1.length) :=
  ⟨by rfl, processJobs_status_boundary raw1 filters1 cfg1 true [] out1 (by rfl)⟩

theorem processLoop_links (cfg : Config) (filters : List Filter) (propsOk : Bool)
    (hd : cfg.dedupeBy = "link") :
    ∀ (raw : List RawJob) (seen : List String) (props : ScriptProps),
      ((processLoop cfg filters propsOk raw seen props).map (fun j => j.Link)).Nodup ∧
      (∀ l ∈ (processLoop cfg filters propsOk raw seen props).map (fun j => j.Link),
        l ∉ seen) ∧
      (∀ job ∈ raw, job.Title ≠ "" → job.Link ≠ "" → job.Source ≠ "" →
        job.Link ∈ seen ∨
          job.Link ∈ (processLoop cfg filters propsOk raw seen props).map
            (fun j => j.Link))
  | [], seen, props => by simp [processLoop]
  | job :: rest, seen, props => by
    rw [processLoop]
    split
    · rename_i hskip
      obtain ⟨h1, h2, h3⟩ := processLoop_links cfg filters propsOk hd rest seen props
      refine ⟨h1, h2, ?_⟩
      intro jb hjb ht hl hs
      rcases List.mem_cons.mp hjb with rfl | hjb'
      · simp only [Bool.or_eq_true, beq_iff_eq] at hskip
        rcases hskip with (h | h) | h
        · exact absurd h ht
        · exact absurd h hl
        · exact absurd h hs
      · exact h3 jb hjb' ht hl hs
    · split
      · rename_i hvalid hdup
        obtain ⟨h1, h2, h3⟩ := processLoop_links cfg filters propsOk hd rest seen props
        refine ⟨h1, h2, ?_⟩
        intro jb hjb ht hl hs
        rcases List.mem_cons.mp hjb with rfl | hjb'
        · left
          simp only [Bool.and_eq_true, beq_iff_eq] at hdup
          exact List.elem_iff.mp hdup.2
        · exact h3 jb hjb' ht hl hs
      · rename_i hvalid hdup
        obtain ⟨h1, h2, h3⟩ :=
          processLoop_links cfg filters propsOk hd rest (job.Link :: seen)
            ((processOne cfg filters propsOk props job).2)
        have hlink : (processOne cfg filters propsOk props job).1.Link = job.Link := rfl
        have hnotseen : job.Link ∉ seen := by
          intro hmem
          exact hdup ((Bool.and_eq_true _ _).mpr ⟨by simp [hd], List.elem_iff.mpr hmem⟩)
        refine ⟨?_, ?_, ?_⟩
        · simp only [List.map_cons, hlink, List.nodup_cons]
          exact ⟨fun hmem => (h2 job.Link hmem) (List.mem_cons_self _ _), h1⟩
        · intro l hlmem
          simp only [List.map_cons, hlink, List.mem_cons] at hlmem
          rcases hlmem with rfl | hlmem
          · exact hnotseen
          · intro hseen
            exact (h2 l hlmem) (List.mem_cons_of_mem _ hseen)
        · intro jb hjb ht hl hs
          rcases List.mem_cons.mp hjb with rfl | hjb'
          · right
            simp [hlink]
          · rcases h3 jb hjb' ht hl hs with hmem | hmem
            · rcases List.mem_cons.mp hmem with heq | hseen
              · right
                simp [hlink, heq]
              · exact Or.inl hseen
            · right
              simp only [List.map_cons, hlink, List.mem_cons]
              exact Or.inr hmem

/-- C4: when `dedupeBy = "link"`, every link appears at most once in the
output of a successful `processJobs` run (the first valid listing with a given
link is emitted, every later one in the batch is skipped), and every valid
listing's link does appear. -/
theorem processJobs_dedups_links (rawJobs : List RawJob) (filters : List Filter)
    (cfg : Config) (propsOk : Bool) (props : ScriptProps) (out : List ProcessedJob)
    (hd : cfg.dedupeBy = "link")
    (h : processJobs rawJobs filters cfg propsOk props = .ok out) :
    (out.map (fun j => j.Link)).Nodup ∧
    ∀ job ∈ rawJobs, job.Title ≠ "" → job.Link ≠ "" → job.Source ≠ "" →
      job.Link ∈ out.map (fun j => j.Link) := by
  rw [processJobs] at h
  split at h
  · exact absurd h (by simp)
  · have hout : out = processLoop cfg filters propsOk rawJobs [] props := by
      cases h
      rfl
    obtain ⟨h1, _, h3⟩ := processLoop_links cfg filters propsOk hd rawJobs [] props
    subst hout
    refine ⟨h1, ?_⟩
    intro job hjb ht hl hs
    rcases h3 job hjb ht hl hs with hmem | hmem
    · exact absurd hmem (List.not_mem_nil _)
    · exact hmem

/-- A batch feeding the same link twice: the second listing has the same link
as the first but a different title. -/
def rawDup : List RawJob :=
  [⟨"a1", "2025-09-13", "Grid lead", none, none, "https://x/1", "S", none⟩,
   ⟨"c1", "2025-09-13", "Grid lead copy", none, none, "https://x/1", "S", none⟩]

/-- The output for `rawDup`: exactly one entry for the duplicated link. -/
def outDup : List ProcessedJob :=
  [⟨"a1", "2025-09-13", "Grid lead", "", "", "https://x/1", "S", "Grid lead from S",
    3, "grid", "New", ""⟩]

/-- Witness for C4 at a concrete batch that feeds the same link twice: the
output contains the link exactly once. -/
theorem processJobs_dedups_links_witness :
    cfg1.dedupeBy = "link" ∧ processJobs rawDup filters1 cfg1 true [] = .ok outDup ∧
    ((outDup.map (fun j => j.Link)).Nodup ∧
      ∀ job ∈ rawDup, job.Title ≠ "" → job.Link ≠ "" → job.Source ≠ "" →
        job.Link ∈ outDup.map (fun j => j.Link)) :=
  ⟨rfl, by rfl,
   processJobs_dedups_links rawDup filters1 cfg1 true [] outDup rfl (by rfl)⟩

theorem getExistingLinks_append (a b : List ProcessedJob) :
    getExistingLinks (a ++ b) = getExistingLinks a ++ getExistingLinks b := by
  simp [getExistingLinks]

theorem appendLoop_link_sub (existing : List String) :
    ∀ (batch : List ProcessedJob) (seenBatch : List String),
      ∀ j ∈ appendLoop existing batch seenBatch,
        (∃ j0 ∈ batch, j0.Link = j.Link ∧ rowValid j0 = true)
  | [], _, _, h => by simp [appendLoop] at h
  | b :: rest, seenBatch, j, h => by
    rw [appendLoop] at h
    split at h
    · obtain ⟨j0, hj0, hl, hv⟩ := appendLoop_link_sub existing rest seenBatch j h
      exact ⟨j0, List.mem_cons_of_mem _ hj0, hl, hv⟩
    · split at h
      · obtain ⟨j0, hj0, hl, hv⟩ := appendLoop_link_sub existing rest seenBatch j h
        exact ⟨j0, List.mem_cons_of_mem _ hj0, hl, hv⟩
      · rcases List.mem_cons.mp h with rfl | h'
        · rename_i hval _
          rw [Bool.not_eq_true', Bool.not_eq_false] at hval
          exact ⟨b, List.mem_cons_self _ _, rfl, hval⟩
        · obtain ⟨j0, hj0, hl, hv⟩ := appendLoop_link_sub existing rest _ j h'
          exact ⟨j0, List.mem_cons_of_mem _ hj0, hl, hv⟩

theorem appendLoop_complete (existing : List String) :
    ∀ (batch : List ProcessedJob) (seenBatch : List String),
      ∀ j ∈ batch, rowValid j = true →
        j.Link ∈ existing ∨ j.Link ∈ seenBatch ∨
          j.Link ∈ (appendLoop existing batch seenBatch).map (fun r => r.Link)
  | [], _, _, h, _ => absurd h (List.not_mem_nil _)
  | b :: rest, seenBatch, j, h, hval => by
    rw [appendLoop]
    split
    · rename_i hinv
      rcases List.mem_cons.mp h with rfl | h'
      · rw [hval] at hinv
        simp at hinv
      · exact appendLoop_complete existing rest seenBatch j h' hval
    · split
      · rename_i hdup
        rcases List.mem_cons.mp h with rfl | h'
        · rcases (Bool.or_eq_true _ _).mp hdup with hx | hx
          · exact Or.inl (List.elem_iff.mp hx)
          · exact Or.inr (Or.inl (List.elem_iff.mp hx))
        · exact appendLoop_complete existing rest seenBatch j h' hval
      · rcases List.mem_cons.mp h with rfl | h'
        · right
          right
          simp
        · rcases appendLoop_complete existing rest (b.Link :: seenBatch) j h' hval with
            hx | hx | hx
          · exact Or.inl hx
          · rcases List.mem_cons.mp hx with heq | hx'
            · right
              right
              simp [heq]
            · exact Or.inr (Or.inl hx')
          · right
            right
            simp only [List.map_cons, List.mem_cons]
            exact Or.inr hx

theorem appendLoop_nil_of_existing (existing : List String) :
    ∀ (batch : List ProcessedJob) (seenBatch : List String),
      (∀ j ∈ batch, rowValid j = true → j.Link ∈ existing) →
      appendLoop existing batch seenBatch = []
  | [], _, _ => by simp [appendLoop]
  | b :: rest, seenBatch, hall => by
    rw [appendLoop]
    split
    · exact appendLoop_nil_of_existing existing rest seenBatch
        (fun j hj hv => hall j (List.mem_cons_of_mem _ hj) hv)
    · split
      · exact appendLoop_nil_of_existing existing rest seenBatch
          (fun j hj hv => hall j (List.mem_cons_of_mem _ hj) hv)
      · rename_i hval hdup
        rw [Bool.not_eq_true', Bool.not_eq_false] at hval
        exact absurd ((Bool.or_eq_true _ _).mpr
          (Or.inl (List.elem_iff.mpr (hall b (List.mem_cons_self _ _) hval)))) hdup

/-- C5 as amended: when every listing in the batch has a link containing the
substring "http" (which is what `getExistingLinks` records), re-running
`appendJobs` with the same batch against the sheet produced by the first run
appends zero additional rows. -/
theorem appendJobs_idempotent (batch : List ProcessedJob) (cfg : Config)
    (sheet sheet1 : List ProcessedJob) (n : Nat)
    (hd : cfg.dedupeBy = "link") (hm : cfg.minScore ≠ 0)
    (hhttp : ∀ j ∈ batch, strIncludes j.Link "http" = true)
    (h1 : appendJobs batch cfg sheet = .ok (n, sheet1)) :
    appendJobs batch cfg sheet1 = .ok (0, sheet1) := by
  have hg1 : (cfg.dedupeBy == "" || cfg.minScore == 0) = false := by
    simp [hd, hm]
  have hg2 : (cfg.dedupeBy != "link") = false := by
    simp [hd]
  rw [appendJobs, hg1, hg2] at h1
  simp only [Bool.false_eq_true, if_false] at h1
  have hsheet1 : sheet1 = sheet ++ appendLoop (getExistingLinks sheet) batch [] := by
    cases h1
    rfl
  rw [appendJobs, hg1, hg2]
  simp only [Bool.false_eq_true, if_false]
  have hnil : appendLoop (getExistingLinks sheet1) batch [] = [] := by
    apply appendLoop_nil_of_existing
    intro j hj hv
    rcases appendLoop_complete (getExistingLinks sheet) batch [] j hj hv with
      hx | hx | hx
    · rw [hsheet1, getExistingLinks_append]
      exact List.mem_append_left _ hx
    · exact absurd hx (List.not_mem_nil _)
    · rw [hsheet1, getExistingLinks_append]
      refine List.mem_append_right _ ?_
      rcases List.mem_map.mp hx with ⟨r, hr, hlink⟩
      obtain ⟨j0, hj0, hl0, hv0⟩ := appendLoop_link_sub (getExistingLinks sheet) batch [] r hr
      have hne : j.Link ≠ "" := by
        have : j0.Link ≠ "" := by
          intro hemp
          rw [rowValid] at hv0
          simp [hemp] at hv0
        rw [← hlink, ← hl0]
        exact this
      have hhttpj : strIncludes j.Link "http" = true := hhttp j hj
      rw [getExistingLinks]
      refine List.mem_filter.mpr ⟨List.mem_map.mpr ⟨r, hr, hlink⟩, ?_⟩
      simp [hne, hhttpj]
  rw [hnil]
  simp [hsheet1]

/-- A processed job whose link is a well-formed URL that does not contain the
substring "http". -/
def ftpJob : ProcessedJob :=
  ⟨"f1", "2025-09-13", "T", "", "", "ftp://example.com/a", "S", "T from S",
   5, "kw", "New", ""⟩

/-- Counterexample to C5 as stated: for a batch whose only listing has the
link `ftp://example.com/a`, the first `appendJobs` run appends it, but the
second run against the resulting sheet appends it again (count 1, not 0),
because `getExistingLinks` only reports links containing "http". -/
theorem appendJobs_not_idempotent :
    appendJobs [ftpJob] cfg1 [] = .ok (1, [ftpJob]) ∧
    appendJobs [ftpJob] cfg1 [ftpJob] = .ok (1, [ftpJob, ftpJob]) ∧
    ftpJob.Link ∉ getExistingLinks [ftpJob] :=
  ⟨by rfl, by rfl, by decide⟩

/-- A processed job whose link contains "http". -/
def httpJob : ProcessedJob :=
  ⟨"h1", "2025-09-13", "T", "", "", "https://example.com/a", "S", "T from S",
   5, "kw", "New", ""⟩

/-- Witness for the amended C5 at a concrete batch with an http link: the
second run appends zero rows. -/
theorem appendJobs_idempotent_witness :
    cfg1.dedupeBy = "link" ∧ cfg1.minScore ≠ 0 ∧
    (∀ j ∈ [httpJob], strIncludes j.Link "http" = true) ∧
    appendJobs [httpJob] cfg1 [] = .ok (1, [httpJob]) ∧
    appendJobs [httpJob] cfg1 [httpJob] = .ok (0, [httpJob]) :=
  ⟨rfl, by decide, by decide, by rfl,
   appendJobs_idempotent [httpJob] cfg1 [] [httpJob] 1 rfl (by decide) (by decide) (by rfl)⟩

/-- C6: marking listings notified is all-or-nothing with respect to the send.
When the external send fails, `sendJobDigest` surfaces the error with the
sheet unchanged, so a retry selects exactly the same candidates; when the send
succeeds, the sheet is rewritten with `markRow`, which sets Status to
`Notified` and DateNotified to today for every selected candidate. -/
theorem sendJobDigest_all_or_nothing (cfg : Config) (rows : List ProcessedJob)
    (today : String)
    (hr : cfg.emailRecipient ≠ "") (ht : cfg.topN ≠ 0) (hc : cfg.coverLetterDocId ≠ "")
    (hne : (eligibleJobs rows cfg).isEmpty = false) :
    (sendJobDigest cfg rows false today = (.error "Failed to send digest", rows) ∧
      eligibleJobs (sendJobDigest cfg rows false today).2 cfg = eligibleJobs rows cfg) ∧
    (sendJobDigest cfg rows true today =
        (.ok (eligibleJobs rows cfg).length,
         rows.map (markRow (eligibleJobs rows cfg) today)) ∧
      ∀ r ∈ eligibleJobs rows cfg,
        markRow (eligibleJobs rows cfg) today r =
          { r with Status := "Notified", DateNotified := today }) := by
  have hguard : (cfg.emailRecipient == "" || cfg.topN == 0 || cfg.coverLetterDocId == "")
      = false := by
    simp [hr, ht, hc]
  have hfail : sendJobDigest cfg rows false today = (.error "Failed to send digest", rows) := by
    rw [sendJobDigest, hguard]
    simp [hne]
  refine ⟨⟨hfail, by rw [hfail]⟩, ?_, ?_⟩
  · rw [sendJobDigest, hguard]
    simp [hne, updateNotifiedJobs]
  · intro r hrmem
    rw [markRow, if_pos]
    exact List.any_eq_true.mpr ⟨r, hrmem, by simp⟩

/-- A config with `minScore = 1` and positive `topN`, valid for the digest
step. -/
def cfg2 : Config :=
  { emailRecipient := "user@example.com", minScore := 1, topN := 10,
    dedupeBy := "link", dateFormat := "yyyy-MM-dd", coverLetterDocId := "doc1" }

/-- A single sheet row eligible for the digest: status New, score above
`minScore`, never notified. -/
def rowE : ProcessedJob :=
  ⟨"e1", "2025-09-13", "T", "", "", "https://example.com/e", "S", "T from S",
   5, "kw", "New", ""⟩

theorem eligibleJobs_rowE : eligibleJobs [rowE] cfg2 = [rowE] := by
  have hfil : [rowE].filter (eligFilter cfg2) = [rowE] := by decide
  have hsort : sortedEligible [rowE] cfg2 = [rowE] := by
    rw [sortedEligible, hfil]
    exact List.mergeSort_singleton rowE
  rw [eligibleJobs, hsort]
  rfl

/-- Witness for C6 at a one-row sheet with one eligible candidate. -/
theorem sendJobDigest_all_or_nothing_witness :
    cfg2.emailRecipient ≠ "" ∧ cfg2.topN ≠ 0 ∧ cfg2.coverLetterDocId ≠ "" ∧
    (eligibleJobs [rowE] cfg2).isEmpty = false ∧
    ((sendJobDigest cfg2 [rowE] false "2025-09-14" =
        (.error "Failed to send digest", [rowE]) ∧
      eligibleJobs (sendJobDigest cfg2 [rowE] false "2025-09-14").2 cfg2 =
        eligibleJobs [rowE] cfg2) ∧
     (sendJobDigest cfg2 [rowE] true "2025-09-14" =
        (.ok (eligibleJobs [rowE] cfg2).length,
         [rowE].map (markRow (eligibleJobs [rowE] cfg2) "2025-09-14")) ∧
      ∀ r ∈ eligibleJobs [rowE] cfg2,
        markRow (eligibleJobs [rowE] cfg2) "2025-09-14" r =
          { r with Status := "Notified", DateNotified := "2025-09-14" })) :=
  ⟨by decide, by decide, by decide, by rw [eligibleJobs_rowE]; rfl,
   sendJobDigest_all_or_nothing cfg2 [rowE] "2025-09-14" (by decide) (by decide)
     (by decide) (by rw [eligibleJobs_rowE]; rfl)⟩

theorem scrapeLoop_includes (fetch : Source → Except String (List RawJob)) :
    ∀ (sources : List Source), ∀ s ∈ sources,
      s.SourceName ≠ "" → s.URL ≠ "" →
      ∀ js, fetch s = .ok js → js.Sublist (scrapeLoop fetch sources)
  | [], s, hs, _, _, _, _ => absurd hs (List.not_mem_nil _)
  | t :: rest, s, hs, hn, hu, js, hok => by
    rw [scrapeLoop]
    split
    · rename_i hskip
      rcases List.mem_cons.mp hs with rfl | hs'
      · simp only [Bool.or_eq_true, beq_iff_eq] at hskip
        rcases hskip with h | h
        · exact absurd h hn
        · exact absurd h hu
      · exact scrapeLoop_includes fetch rest s hs' hn hu js hok
    · rcases List.mem_cons.mp hs with rfl | hs'
      · rw [hok]
        exact List.sublist_append_left js (scrapeLoop fetch rest)
      · have ih := scrapeLoop_includes fetch rest s hs' hn hu js hok
        match hfetch : fetch t with
        | .ok tjs =>
          exact ih.trans (List.sublist_append_right tjs (scrapeLoop fetch rest))
        | .error e =>
          exact ih

/-- C7: a failure fetching or parsing one source does not abort the rest.
Even when `fetchSingleRSS` (modelled by the `fetch` collaborator) throws for
some source in the list, `scrapeJobs` still succeeds and its output contains
the full fetched job list of every source that fetched successfully. -/
theorem scrapeJobs_isolates_failures (fetch : Source → Except String (List RawJob))
    (sources : List Source) (s0 : Source) (e : String)
    (hs : sources ≠ []) (h0 : s0 ∈ sources) (hf : fetch s0 = .error e) :
    ∃ out, scrapeJobs fetch sources = .ok out ∧
      ∀ s ∈ sources, s.SourceName ≠ "" → s.URL ≠ "" →
        ∀ js, fetch s = .ok js → js.Sublist out := by
  refine ⟨scrapeLoop fetch sources, ?_, scrapeLoop_includes fetch sources⟩
  rw [scrapeJobs, if_neg]
  simp [hs]

/-- A healthy source. -/
def goodSource : Source := ⟨"Good RSS", "https://example.com/feed", ""⟩

/-- A source whose fetch fails. -/
def badSource : Source := ⟨"Bad RSS", "https://example.com/invalid-feed", ""⟩

/-- A raw job served by the healthy source. -/
def jobGood : RawJob :=
  ⟨"g1", "2025-09-13", "Test Job", none, none, "https://example.com/job1", "Good RSS", none⟩

/-- A concrete fetch collaborator: the bad source throws, every other source
returns one job. -/
def fetchMock (s : Source) : Except String (List RawJob) :=
  if s.SourceName == "Bad RSS" then .error "XML parsing failed" else .ok [jobGood]

/-- Witness for C7: with one healthy and one failing source, `scrapeJobs`
succeeds and the healthy source's job survives. -/
theorem scrapeJobs_isolates_failures_witness :
    [goodSource, badSource] ≠ ([] : List Source) ∧
    badSource ∈ [goodSource, badSource] ∧
    fetchMock badSource = .error "XML parsing failed" ∧
    (∃ out, scrapeJobs fetchMock [goodSource, badSource] = .ok out ∧
      ∀ s ∈ [goodSource, badSource], s.SourceName ≠ "" → s.URL ≠ "" →
        ∀ js, fetchMock s = .ok js → js.Sublist out) :=
  ⟨by decide, by decide, by rfl,
   scrapeJobs_isolates_failures fetchMock [goodSource, badSource] badSource
     "XML parsing failed" (by decide) (by decide) (by rfl)⟩

theorem scoreDescLE_trans : ∀ a b c : ProcessedJob,
    scoreDescLE a b → scoreDescLE b c → scoreDescLE a c := by
  intro a b c h1 h2
  simp only [scoreDescLE, decide_eq_true_eq] at h1 h2 ⊢
  exact le_trans h2 h1

theorem scoreDescLE_total : ∀ a b : ProcessedJob, scoreDescLE a b || scoreDescLE b a := by
  intro a b
  simp only [scoreDescLE, Bool.or_eq_true, decide_eq_true_eq]
  exact le_total b.Score a.Score

theorem sortedEligible_filter_score (rows : List ProcessedJob) (cfg : Config) (s : Int) :
    (sortedEligible rows cfg).filter (fun j => j.Score == s) =
      (rows.filter (eligFilter cfg)).filter (fun j => j.Score == s) := by
  rw [sortedEligible]
  have hmem : ∀ j ∈ (rows.filter (eligFilter cfg)).filter (fun j => j.Score == s),
      j.Score = s := by
    intro j hj
    simpa using (List.mem_filter.mp hj).2
  have hpw : ((rows.filter (eligFilter cfg)).filter (fun j => j.Score == s)).Pairwise
      (fun a b => scoreDescLE a b = true) := by
    apply List.pairwise_of_forall_mem_list
    intro a ha b hb
    simp only [scoreDescLE, decide_eq_true_eq]
    rw [hmem a ha, hmem b hb]
  have hst := List.sublist_mergeSort scoreDescLE_trans scoreDescLE_total hpw
    (List.filter_sublist (rows.filter (eligFilter cfg)))
  have hc_self : ((rows.filter (eligFilter cfg)).filter (fun j => j.Score == s)).filter
      (fun j => j.Score == s) =
      (rows.filter (eligFilter cfg)).filter (fun j => j.Score == s) :=
    List.filter_eq_self.mpr (fun a ha => (List.mem_filter.mp ha).2)
  have h2 := hst.filter (fun j => j.Score == s)
  rw [hc_self] at h2
  have h3 : List.Perm
      (((rows.filter (eligFilter cfg)).mergeSort scoreDescLE).filter
        (fun j => j.Score == s))
      ((rows.filter (eligFilter cfg)).filter (fun j => j.Score == s)) :=
    (List.mergeSort_perm (rows.filter (eligFilter cfg)) scoreDescLE).filter _
  exact (h2.eq_of_length h3.length_eq.symm).symm

/-- C2: the digest selection of `sendJobDigest` (`eligibleJobs`) selects at
most `topN` listings; every selected listing has status `New` (accepted),
score at least `minScore`, and an empty notified date; the selection is
ordered by score descending; and, for every score value, the selected
listings with that score form an initial segment, in original sheet order, of
the eligible listings with that score (stable sort, first-seen-first-ranked
among equal scores). -/
theorem digest_selection_policy (rows : List ProcessedJob) (cfg : Config)
    (htop : 0 ≤ cfg.topN) :
    ((eligibleJobs rows cfg).length : Int) ≤ cfg.topN ∧
    (∀ j ∈ eligibleJobs rows cfg,
      j.Status = "New" ∧ cfg.minScore ≤ j.Score ∧ j.DateNotified = "") ∧
    (eligibleJobs rows cfg).Pairwise (fun a b => b.Score ≤ a.Score) ∧
    ∀ s : Int,
      ∃ t, (eligibleJobs rows cfg).filter (fun j => j.Score == s) ++ t =
        (rows.filter (eligFilter cfg)).filter (fun j => j.Score == s) := by
  have hsel : eligibleJobs rows cfg = (sortedEligible rows cfg).take cfg.topN.toNat := by
    rw [eligibleJobs, jsSlice, if_neg (not_lt.mpr htop)]
  refine ⟨?_, ?_, ?_, ?_⟩
  · rw [hsel]
    have h1 : ((sortedEligible rows cfg).take cfg.topN.toNat).length ≤ cfg.topN.toNat := by
      rw [List.length_take]
      exact Nat.min_le_left _ _
    calc (((sortedEligible rows cfg).take cfg.topN.toNat).length : Int)
        ≤ (cfg.topN.toNat : Int) := Int.ofNat_le.mpr h1
      _ = cfg.topN := Int.toNat_of_nonneg htop
  · intro j hj
    rw [hsel] at hj
    have hj1 : j ∈ sortedEligible rows cfg := List.take_subset _ _ hj
    rw [sortedEligible] at hj1
    have hj2 : j ∈ rows.filter (eligFilter cfg) :=
      (List.mergeSort_perm (rows.filter (eligFilter cfg)) scoreDescLE).mem_iff.mp hj1
    have hf := (List.mem_filter.mp hj2).2
    simp only [eligFilter, Bool.and_eq_true, beq_iff_eq, decide_eq_true_eq] at hf
    exact ⟨hf.1.1, hf.1.2, hf.2⟩
  · have hsorted : (sortedEligible rows cfg).Pairwise (fun a b => scoreDescLE a b = true) := by
      rw [sortedEligible]
      exact List.sorted_mergeSort scoreDescLE_trans scoreDescLE_total _
    have hsc : (sortedEligible rows cfg).Pairwise (fun a b => b.Score ≤ a.Score) :=
      hsorted.imp (fun h => by simpa [scoreDescLE] using h)
    rw [hsel]
    exact List.Pairwise.sublist (List.take_sublist _ _) hsc
  · intro s
    refine ⟨((sortedEligible rows cfg).drop cfg.topN.toNat).filter (fun j => j.Score == s),
      ?_⟩
    rw [hsel, ← List.filter_append, List.take_append_drop]
    exact sortedEligible_filter_score rows cfg s

/-- Witness for C2 at a one-row sheet under `cfg2` (topN = 10). -/
theorem digest_selection_policy_witness :
    0 ≤ cfg2.topN ∧
    (((eligibleJobs [rowE] cfg2).length : Int) ≤ cfg2.topN ∧
     (∀ j ∈ eligibleJobs [rowE] cfg2,
        j.Status = "New" ∧ cfg2.minScore ≤ j.Score ∧ j.DateNotified = "") ∧
     (eligibleJobs [rowE] cfg2).Pairwise (fun a b => b.Score ≤ a.Score) ∧
     ∀ s : Int,
       ∃ t, (eligibleJobs [rowE] cfg2).filter (fun j => j.Score == s) ++ t =
         ([rowE].filter (eligFilter cfg2)).filter (fun j => j.Score == s)) :=
  ⟨by decide, digest_selection_policy [rowE] cfg2 (by decide)⟩

end JobAgg
